import Mathlib

/-!
Shallow embedding of the nexobot scraper core (validators.py, sitemap.py,
extractors.py, scraper.py) and verification of the claims about it.

Conventions of the embedding:
* Python strings are Lean `String`s; most character-level operations are
  carried out on `List Char` (`String.data`), with small helper functions
  mirroring the Python string methods used by the source.
* `urlparse` output is modelled by the `Url` structure holding the netloc,
  path and raw query string of a URL.  `urllib.parse.parse_qs` is modelled
  by `parseQsKeys` (keys whose value part is non-empty, split on `&`;
  percent-decoding is not modelled, all keys of interest are plain ASCII).
* Compiled regular expressions are modelled by decidable Boolean matchers,
  one per archive pattern of `URLValidator.ARCHIVE_PATTERNS`.
* Network fetching (`fetch_sitemap`) is modelled by a function parameter
  `fetch : String → Option SitemapDoc`; a parsed sitemap document is either
  a sitemap index (list of child sitemap `loc` texts) or a url set (list of
  `UrlElem`, one per `<url>` element, holding the stripped texts of its
  optional child elements).
* Python `float` values are modelled as rationals and Python's `float(str)`
  parser is a function parameter `parseFloat : String → Option Rat`
  (`none` models `ValueError`).
* BeautifulSoup queries of `extract_tags` are modelled by the `TagPage`
  structure holding exactly the data those queries return, and the block
  elements walked by `_extract_sections` by the `BlockElem` inductive.
* A Python generator is modelled as the list of the values it yields.
-/

namespace Nexobot

/-! ### Character-list helpers (models of Python str operations) -/

/-- Model of Python `s.split(sep)` for a one-character separator:
`''.split(sep) = ['']`, empty chunks are kept. -/
def splitOnChar (sep : Char) : List Char → List (List Char)
  | [] => [[]]
  | c :: rest =>
    match splitOnChar sep rest with
    | [] => [[]]
    | g :: gs => if c = sep then [] :: g :: gs else (c :: g) :: gs

/-- Model of Python `s.strip(sep)` for a one-character strip set. -/
def stripChar (sep : Char) (cs : List Char) : List Char :=
  ((cs.dropWhile (fun c => c == sep)).reverse.dropWhile (fun c => c == sep)).reverse

/-- `startsWithList pre l` : `l` starts with `pre`. -/
def startsWithList : List Char → List Char → Bool
  | [], _ => true
  | _ :: _, [] => false
  | p :: ps, c :: cs => p == c && startsWithList ps cs

/-- `endsWithList suf l` : `l` ends with `suf`. -/
def endsWithList (suf l : List Char) : Bool :=
  startsWithList suf.reverse l.reverse

/-- Model of Python `sub in s` (substring containment). -/
def containsList (sub : List Char) : List Char → Bool
  | [] => sub.isEmpty
  | c :: rest => startsWithList sub (c :: rest) || containsList sub rest

/-- Model of Python `s.lower()` (ASCII case folding). -/
def lowerStr (s : String) : List Char :=
  s.data.map Char.toLower

/-- Model of Python `s.strip()` (no argument: strip whitespace). -/
def pyStrip (s : String) : String :=
  String.mk (((s.data.dropWhile Char.isWhitespace).reverse.dropWhile
    Char.isWhitespace).reverse)

/-- Model of Python `sep.join(parts)`. -/
def joinWith (sep : String) : List String → String
  | [] => ""
  | [x] => x
  | x :: y :: xs => x ++ sep ++ joinWith sep (y :: xs)

/-! ### validators.py — URLValidator -/

/-- Model of the output of `urllib.parse.urlparse`: the network location,
the path and the raw query string of a URL. -/
structure Url where
  netloc : String
  path : String
  query : String
deriving DecidableEq

/-- `URLValidator.PAGINATION_PARAMS`. -/
def PAGINATION_PARAMS : List String := ["page", "paged", "p", "offset"]

/-- `URLValidator.BLOG_SUBDOMAINS`. -/
def BLOG_SUBDOMAINS : List String := ["blog", "news", "articles", "content"]

/-- Model of `urllib.parse.parse_qs(query).keys()` with default options: the
query splits on `&`, a chunk contributes its part before the first `=`
exactly when the part after that `=` is non-empty.  (Percent-decoding is not
modelled; the keys the validator looks for are plain ASCII names.) -/
def parseQsKeys (q : String) : List String :=
  (splitOnChar '&' q.data).filterMap fun nv =>
    let name := nv.takeWhile (fun c => c != '=')
    match nv.drop name.length with
    | '=' :: v => if v.isEmpty then none else some (String.mk name)
    | _ => none

/-- `URLValidator.get_path_depth`. -/
def get_path_depth (u : Url) : Nat :=
  let path := stripChar '/' u.path.data
  if path.isEmpty then 0 else (splitOnChar '/' path).length

/-- One position of the (case-sensitive) regex search `r'/page/\d+'`
performed by `has_pagination`: the list starts with `/page/` followed by at
least one digit. -/
def pageNumAt (cs : List Char) : Bool :=
  startsWithList "/page/".data cs &&
    (((cs.drop 6).head?.map Char.isDigit).getD false)

/-- The regex search `re.search(r'/page/\d+', path)` of `has_pagination`. -/
def containsPageNum : List Char → Bool
  | [] => false
  | c :: rest => pageNumAt (c :: rest) || containsPageNum rest

/-- `URLValidator.has_pagination`. -/
def has_pagination (u : Url) : Bool :=
  PAGINATION_PARAMS.any (fun p => (parseQsKeys u.query).contains p) ||
    containsPageNum u.path.data

/-- `\d+/?$` — at least one digit, an optional `/`, then the end. -/
def digitsThenOptSlash (cs : List Char) : Bool :=
  let ds := cs.takeWhile Char.isDigit
  let rest := cs.drop ds.length
  !ds.isEmpty && (rest.isEmpty || rest == ['/'])

/-- `ARCHIVE_PATTERNS[0] = r'^/page/\d+/?$'` on a lowercased path. -/
def pat0 (cs : List Char) : Bool :=
  startsWithList "/page/".data cs && digitsThenOptSlash (cs.drop 6)

/-- `ARCHIVE_PATTERNS[1] = r'^/[^/]+/?$'` — single-segment path. -/
def pat1 (cs : List Char) : Bool :=
  match cs with
  | '/' :: rest =>
    let seg := rest.takeWhile (fun c => c != '/')
    let tl := rest.drop seg.length
    !seg.isEmpty && (tl.isEmpty || tl == ['/'])
  | _ => false

/-- `ARCHIVE_PATTERNS[2] = r'^/[^/]+/page/\d+/?$'`. -/
def pat2 (cs : List Char) : Bool :=
  match cs with
  | '/' :: rest =>
    let seg := rest.takeWhile (fun c => c != '/')
    let tl := rest.drop seg.length
    !seg.isEmpty && startsWithList "/page/".data tl && digitsThenOptSlash (tl.drop 6)
  | _ => false

/-- `ARCHIVE_PATTERNS[3] = r'^/category/'`. -/
def pat3 (cs : List Char) : Bool := startsWithList "/category/".data cs

/-- `ARCHIVE_PATTERNS[4] = r'^/tag/'`. -/
def pat4 (cs : List Char) : Bool := startsWithList "/tag/".data cs

/-- `ARCHIVE_PATTERNS[5] = r'^/author/'`. -/
def pat5 (cs : List Char) : Bool := startsWithList "/author/".data cs

/-- `ARCHIVE_PATTERNS[6] = r'^/archive/'`. -/
def pat6 (cs : List Char) : Bool := startsWithList "/archive/".data cs

/-- `ARCHIVE_PATTERNS[7] = r'^/search'`. -/
def pat7 (cs : List Char) : Bool := startsWithList "/search".data cs

/-- `ARCHIVE_PATTERNS[8] = r'/feed/?$'`. -/
def pat8 (cs : List Char) : Bool :=
  endsWithList "/feed".data cs || endsWithList "/feed/".data cs

/-- `ARCHIVE_PATTERNS[9] = r'\.(xml|rss)$'`. -/
def pat9 (cs : List Char) : Bool :=
  endsWithList ".xml".data cs || endsWithList ".rss".data cs

/-- `URLValidator.has_subdomain`. -/
def has_subdomain (u : Url) : Bool :=
  let parts := (splitOnChar '.' (lowerStr u.netloc)).map String.mk
  decide (3 ≤ parts.length) &&
    (parts.headD "" != "www") && BLOG_SUBDOMAINS.contains (parts.headD "")

/-- The disjunction of every archive pattern except the single-segment
pattern (index 1), on the (case-insensitively matched) path. -/
def matchesOtherArchivePattern (path : String) : Bool :=
  let cs := lowerStr path
  pat0 cs || pat2 cs || pat3 cs || pat4 cs || pat5 cs || pat6 cs ||
    pat7 cs || pat8 cs || pat9 cs

/-- `URLValidator.matches_archive_pattern`: every pattern is tried
(case-insensitively), except that the single-segment pattern (index 1) is
skipped when the URL has a blog-style subdomain. -/
def matches_archive_pattern (u : Url) : Bool :=
  let cs := lowerStr u.path
  pat0 cs || (!has_subdomain u && pat1 cs) || pat2 cs || pat3 cs || pat4 cs ||
    pat5 cs || pat6 cs || pat7 cs || pat8 cs || pat9 cs

/-- `URLValidator.is_root_domain`. -/
def is_root_domain (u : Url) : Bool :=
  (stripChar '/' u.path.data).isEmpty && u.query.isEmpty

/-- `URLValidator.is_single_post` (the `min_path_depth` constructor argument
is passed explicitly; its default is 3). -/
def is_single_post (minPathDepth : Nat) (u : Url) : Bool × String :=
  if is_root_domain u then
    (false, "URL is a root domain (use sitemap discovery)")
  else if has_pagination u then
    (false, "URL has pagination parameters")
  else if matches_archive_pattern u then
    (false, "URL matches archive pattern")
  else
    let depth := get_path_depth u
    let minDepth := if has_subdomain u then 1 else minPathDepth
    if depth < minDepth then
      (false, "URL path too shallow (" ++ toString depth ++ " segments, need "
        ++ toString minDepth ++ ")")
    else
      let pathParts := splitOnChar '/' (stripChar '/' u.path.data)
      let lastSegment := pathParts.getLastD []
      if lastSegment.isEmpty || lastSegment.all Char.isDigit then
        (false, "URL doesn't end with a valid slug")
      else
        (true, "Valid single post URL")

/-! ### sitemap.py — SitemapParser -/

/-- `SitemapEntry` dataclass (priorities as rationals, see the header). -/
structure SitemapEntry where
  url : String
  lastmod : Option String := none
  changefreq : Option String := none
  priority : Option Rat := none
deriving DecidableEq

/-- One `<url>` element of a url set: the stripped text of its `loc`,
`lastmod`, `changefreq` and `priority` children (`none` = child absent). -/
structure UrlElem where
  loc : Option String := none
  lastmod : Option String := none
  changefreq : Option String := none
  priority : Option String := none
deriving DecidableEq

/-- A parsed sitemap document: either a sitemap index (the `loc` texts of
its `<sitemap>` children) or a plain url set (its `<url>` elements). -/
inductive SitemapDoc where
  | index (children : List String)
  | urlset (urls : List UrlElem)
deriving DecidableEq

/-- `SitemapParser.is_sitemap_index`. -/
def is_sitemap_index : SitemapDoc → Bool
  | .index _ => true
  | .urlset _ => false

/-- `SitemapParser.parse_sitemap_index` (a url set has no `<sitemap>`
elements, so it yields no child sitemap URLs). -/
def parse_sitemap_index : SitemapDoc → List String
  | .index cs => cs
  | .urlset _ => []

/-- The per-`<url>`-element body of `SitemapParser.parse_urlset`: skip the
element when `loc` is missing, otherwise build a `SitemapEntry`; a
`priority` text that fails `float` parsing is silently ignored. -/
def parseUrlElem (parseFloat : String → Option Rat) (e : UrlElem) :
    Option SitemapEntry :=
  match e.loc with
  | none => none
  | some u =>
    some { url := u, lastmod := e.lastmod, changefreq := e.changefreq,
           priority := match e.priority with
                       | none => none
                       | some t => parseFloat t }

/-- `SitemapParser.parse_urlset` (an index document has no `<url>`
elements). -/
def parse_urlset (parseFloat : String → Option Rat) : SitemapDoc → List SitemapEntry
  | .index _ => []
  | .urlset elems => elems.filterMap (parseUrlElem parseFloat)

/-- The Python truthiness test `if max_urls and count >= max_urls`:
`None` and `0` are both falsy, so neither limits. -/
def limitReached (maxUrls : Option Nat) (count : Nat) : Bool :=
  match maxUrls with
  | none => false
  | some m => !(m == 0) && decide (m ≤ count)

/-- The filter test `if pattern and not pattern.search(entry.url)` of
`get_all_urls`; the compiled regex is modelled as a `String → Bool`. -/
def keepEntry (pattern : Option (String → Bool)) (e : SitemapEntry) : Bool :=
  match pattern with
  | none => true
  | some p => p e.url

/-- `'post' in url.lower().split('/')[-1]` — the smart-filter test of
`get_all_urls`. -/
def isPostSitemap (url : String) : Bool :=
  containsList "post".data ((splitOnChar '/' (lowerStr url)).getLastD [])

/-- The `ignore_keywords` list of `get_all_urls`. -/
def ignoreKeywords : List String := ["category", "tag", "author", "user", "page"]

/-- `any(k in child_sitemap_url.lower() for k in ignore_keywords)`. -/
def hasIgnoreKeyword (url : String) : Bool :=
  ignoreKeywords.any (fun k => containsList k.data (lowerStr url))

/-- The inner entry loop of `get_all_urls` over one url set: stop at the
limit, skip entries rejected by the filter, yield and count the rest.
Returns the yielded entries and the updated count. -/
def runUrlset (pattern : Option (String → Bool)) (maxUrls : Option Nat) :
    Nat → List SitemapEntry → List SitemapEntry × Nat
  | count, [] => ([], count)
  | count, e :: rest =>
    if limitReached maxUrls count then ([], count)
    else if keepEntry pattern e then
      let r := runUrlset pattern maxUrls (count + 1) rest
      (e :: r.1, r.2)
    else
      runUrlset pattern maxUrls count rest

/-- The child-sitemap loop of `get_all_urls`: stop at the limit, skip
keyword-excluded children when no post filtering happened, fetch each
remaining child and run the entry loop on it. -/
def runChildren (fetch : String → Option SitemapDoc)
    (parseFloat : String → Option Rat) (pattern : Option (String → Bool))
    (maxUrls : Option Nat) (skipKeywords : Bool) :
    Nat → List String → List SitemapEntry
  | _, [] => []
  | count, c :: rest =>
    if limitReached maxUrls count then []
    else if skipKeywords && hasIgnoreKeyword c then
      runChildren fetch parseFloat pattern maxUrls skipKeywords count rest
    else
      match fetch c with
      | none => runChildren fetch parseFloat pattern maxUrls skipKeywords count rest
      | some doc =>
        let r := runUrlset pattern maxUrls count (parse_urlset parseFloat doc)
        r.1 ++ runChildren fetch parseFloat pattern maxUrls skipKeywords r.2 rest

/-- `SitemapParser.get_all_urls`, as the list of entries the generator
yields.  On a sitemap index it applies the smart filtering (keep only the
children whose final URL segment contains "post" when any does, otherwise
keep all children but skip keyword-excluded ones) and walks the retained
children; on a plain url set it walks its entries directly. -/
def get_all_urls (fetch : String → Option SitemapDoc)
    (parseFloat : String → Option Rat) (sitemapUrl : String)
    (pattern : Option (String → Bool)) (maxUrls : Option Nat) :
    List SitemapEntry :=
  match fetch sitemapUrl with
  | none => []
  | some doc =>
    if is_sitemap_index doc then
      let children := parse_sitemap_index doc
      let postSitemaps := children.filter isPostSitemap
      let targets := if postSitemaps.isEmpty then children else postSitemaps
      runChildren fetch parseFloat pattern maxUrls postSitemaps.isEmpty 0 targets
    else
      (runUrlset pattern maxUrls 0 (parse_urlset parseFloat doc)).1

/-! ### extractors.py — ContentExtractor -/

/-- `ContentSection` dataclass (models.py). -/
structure ContentSection where
  heading : String
  content : String
  level : Nat
deriving DecidableEq

/-- One block element walked by `_extract_sections`
(`article.find_all(['p', 'h2', 'h3', 'ul', 'ol', 'table'])`, in document
order).  Each constructor carries the stripped text the extractor reads
from it: a paragraph or heading its `get_text(strip=True)`, a list the
stripped text of each `<li>`, a table the stripped cell texts of each row. -/
inductive BlockElem where
  | p (text : String)
  | h2 (text : String)
  | h3 (text : String)
  | ul (items : List String)
  | ol (items : List String)
  | table (rows : List (List String))
deriving DecidableEq

/-- `ContentExtractor._extract_table_text`: rows as pipe-delimited lines
(rows without cells are dropped). -/
def extract_table_text (rows : List (List String)) : String :=
  joinWith "\n"
    ((rows.filter (fun cells => !cells.isEmpty)).map (joinWith " | "))

/-- The bullet-line text built for a `ul`/`ol` element (the bullet prefix
reproduces the literal bytes of the source file). -/
def listText (items : List String) : String :=
  joinWith "\n" (items.map (fun li => "  â€¢ " ++ li))

/-- The loop state of `_extract_sections`: the introduction accumulator,
the currently open section, and the closed sections so far. -/
structure SectState where
  introParts : List String
  current : Option ContentSection
  sections : List ContentSection
deriving DecidableEq

/-- One iteration of the `_extract_sections` loop. -/
def sectStep (st : SectState) : BlockElem → SectState
  | .h2 t =>
    let sections :=
      match st.current with
      | some cs => if pyStrip cs.content ≠ "" then st.sections ++ [cs] else st.sections
      | none => st.sections
    { st with sections := sections, current := some ⟨t, "", 2⟩ }
  | .h3 t =>
    match st.current with
    | some cs =>
      { st with current := some { cs with content := cs.content ++ "\n\n### " ++ t ++ "\n" } }
    | none => st
  | .p t =>
    if t = "" then st
    else
      match st.current with
      | none => { st with introParts := st.introParts ++ [t] }
      | some cs => { st with current := some { cs with content := cs.content ++ "\n" ++ t } }
  | .ul items =>
    match st.current with
    | some cs =>
      { st with current := some { cs with content := cs.content ++ "\n" ++ listText items } }
    | none => { st with introParts := st.introParts ++ [listText items] }
  | .ol items =>
    match st.current with
    | some cs =>
      { st with current := some { cs with content := cs.content ++ "\n" ++ listText items } }
    | none => { st with introParts := st.introParts ++ [listText items] }
  | .table rows =>
    match st.current with
    | some cs =>
      let newContent := cs.content ++ "\n\n" ++ extract_table_text rows ++ "\n"
      { st with current := some { cs with content := newContent } }
    | none => st

/-- `ContentExtractor._extract_sections`: run the loop, close the final
open section if its body is non-blank, and emit the introduction section
(level 0) first when the accumulated introduction is non-blank. -/
def extract_sections (elems : List BlockElem) : List ContentSection :=
  let st := elems.foldl sectStep ⟨[], none, []⟩
  let sections :=
    match st.current with
    | some cs => if pyStrip cs.content ≠ "" then st.sections ++ [cs] else st.sections
    | none => st.sections
  let introText := joinWith "\n\n" st.introParts
  (if pyStrip introText ≠ "" then [ContentSection.mk "" introText 0] else []) ++ sections

/-- The data `ContentExtractor.extract_tags` reads from a page:
the `content` of the first `meta[name=keywords]` (`none` = absent), the
`content` of every `meta[property=article:tag]` (`""` = attribute absent or
empty, both falsy in the source), the stripped text of every
`a[rel=tag]`, and the stripped text of every anchor inside a tag-classed
`div`/`span`/`ul` container, in document order. -/
structure TagPage where
  metaKeywords : Option String
  articleTagMetas : List String
  relTagAnchors : List String
  tagContainerAnchors : List String
deriving DecidableEq

/-- The Python `tags.add(x)` of `extract_tags`: the `set` is modelled as a
duplicate-free list, adding an element only when it is not yet present.
(Python's set iteration order is unspecified, so only the membership and
duplicate-freeness of the resulting `list(tags)` are meaningful.) -/
def setAdd (l : List String) (s : String) : List String :=
  if s ∈ l then l else l ++ [s]

/-- `ContentExtractor.extract_tags`: the four strategies add into one
Python `set` (see `setAdd`); the result models `list(tags)` up to order. -/
def extract_tags (pg : TagPage) : List String :=
  let t1 : List String :=
    match pg.metaKeywords with
    | some c =>
      if c ≠ "" then
        (((splitOnChar ',' c.data).map String.mk).map pyStrip).foldl
          (fun s kw => if kw ≠ "" then setAdd s kw else s) []
      else []
    | none => []
  let t2 := pg.articleTagMetas.foldl
    (fun s c => if c ≠ "" then setAdd s (pyStrip c) else s) t1
  let t3 := pg.relTagAnchors.foldl
    (fun s t => if t ≠ "" then setAdd s t else s) t2
  pg.tagContainerAnchors.foldl
    (fun s t => if t ≠ "" ∧ t.length < 50 then setAdd s t else s) t3

/-- Strategy (a) of `extract_tags` in isolation: the comma-split, trimmed,
non-empty keywords of the `keywords` meta tag. -/
def keywordStrategy (pg : TagPage) : List String :=
  match pg.metaKeywords with
  | some c =>
    if c ≠ "" then
      (((splitOnChar ',' c.data).map String.mk).map pyStrip).filter (fun kw => kw ≠ "")
    else []
  | none => []

/-- Strategy (b) of `extract_tags` in isolation: the trimmed contents of
the `article:tag` meta properties with a truthy `content`. -/
def articleTagStrategy (pg : TagPage) : List String :=
  (pg.articleTagMetas.filter (fun c => c ≠ "")).map pyStrip

/-- Strategy (c) of `extract_tags` in isolation: the non-empty texts of
the `rel="tag"` anchors. -/
def relTagStrategy (pg : TagPage) : List String :=
  pg.relTagAnchors.filter (fun t => t ≠ "")

/-- Strategy (d) of `extract_tags` in isolation: the non-empty texts,
shorter than 50 characters, of anchors inside tag-classed containers. -/
def containerStrategy (pg : TagPage) : List String :=
  pg.tagContainerAnchors.filter (fun t => decide (t ≠ "" ∧ t.length < 50))

/-! ### scraper.py — Scraper -/

/-- The `content` dictionary produced by `ContentExtractor.extract_content`
as consumed by `Scraper.is_valid_article`. -/
structure ExtractedContent where
  content_html : String
  sections : List ContentSection
deriving DecidableEq

/-- `Scraper.is_valid_article`: content length is the length of
`content_html`, recomputed as the summed section-body lengths only when it
is zero; below 100 the article is rejected as too short. -/
def is_valid_article (c : ExtractedContent) : Bool × String :=
  let totalLength := c.content_html.length
  let totalLength :=
    if totalLength = 0 then
      c.sections.foldl (fun acc s => acc + s.content.length) totalLength
    else totalLength
  if totalLength < 100 then (false, "Content too short")
  else (true, "Valid article")

/-- The total extracted length as the specification words it: the length of
`contentHtml`, or, if that is zero, the summed length of all section
bodies. -/
def totalExtractedLength (c : ExtractedContent) : Nat :=
  if c.content_html.length = 0 then
    (c.sections.map (fun s => s.content.length)).sum
  else c.content_html.length

/-! ### Derived notions used to state the claims -/

/-- Whether a block element is a level-2 heading. -/
def isH2Elem : BlockElem → Bool
  | .h2 _ => true
  | _ => false

/-- The entries parsed from one child sitemap URL: nothing on fetch
failure, the parsed url set otherwise. -/
def fetchedEntries (fetch : String → Option SitemapDoc)
    (parseFloat : String → Option Rat) (c : String) : List SitemapEntry :=
  match fetch c with
  | none => []
  | some doc => parse_urlset parseFloat doc

/-- What one child sitemap contributes to an unbounded traversal: nothing
when it is skipped by the keyword exclusion (active only when `skipKeywords`
is set), otherwise its fetched entries that pass the URL filter. -/
def childYield (fetch : String → Option SitemapDoc)
    (parseFloat : String → Option Rat) (pattern : Option (String → Bool))
    (skipKeywords : Bool) (c : String) : List SitemapEntry :=
  if skipKeywords && hasIgnoreKeyword c then []
  else
    match fetch c with
    | none => []
    | some doc => (parse_urlset parseFloat doc).filter (keepEntry pattern)

/-- The child sitemaps retained by the smart filtering of `get_all_urls`:
exactly the "post" children when any exists, otherwise all children that
contain no ignore keyword. -/
def keptChildren (children : List String) : List String :=
  if children.any isPostSitemap then children.filter isPostSitemap
  else children.filter (fun c => !hasIgnoreKeyword c)

/-- The host condition of the blog-subdomain exemption, as the claim words
it: the first of at least 3 dot-separated labels of the lowercased host is
one of `blog`, `news`, `articles`, `content`. -/
def blogHostLabels (netloc : String) : Bool :=
  decide (3 ≤ (splitOnChar '.' (lowerStr netloc)).length) &&
    decide ((splitOnChar '.' (lowerStr netloc)).headD [] ∈
      ["blog".data, "news".data, "articles".data, "content".data])

/-! ### Lemmas about the sitemap traversal -/

theorem childYield_eq (fetch : String → Option SitemapDoc)
    (pf : String → Option Rat) (pat : Option (String → Bool)) (skip : Bool)
    (c : String) :
    childYield fetch pf pat skip c
      = if skip && hasIgnoreKeyword c then []
        else (fetchedEntries fetch pf c).filter (keepEntry pat) := by
  unfold childYield fetchedEntries
  cases fetch c <;> simp

theorem runUrlset_of_limit_false (pat : Option (String → Bool))
    (m : Option Nat) (hm : ∀ c, limitReached m c = false)
    (es : List SitemapEntry) : ∀ count,
    runUrlset pat m count es
      = (es.filter (keepEntry pat), count + (es.filter (keepEntry pat)).length) := by
  induction es with
  | nil => intro count; simp [runUrlset]
  | cons e rest ih =>
    intro count
    cases hk : keepEntry pat e with
    | true =>
      simp [runUrlset, hm, hk, List.filter_cons, ih (count + 1)]
      omega
    | false => simp [runUrlset, hm, hk, List.filter_cons, ih count]

theorem runChildren_of_limit_false (fetch : String → Option SitemapDoc)
    (pf : String → Option Rat) (pat : Option (String → Bool)) (m : Option Nat)
    (hm : ∀ c, limitReached m c = false) (skip : Bool)
    (cs : List String) : ∀ count,
    runChildren fetch pf pat m skip count cs
      = cs.flatMap (childYield fetch pf pat skip) := by
  induction cs with
  | nil => intro count; simp [runChildren]
  | cons c rest ih =>
    intro count
    cases hsk : skip && hasIgnoreKeyword c with
    | true => simp [runChildren, hm, hsk, childYield, ih count]
    | false =>
      cases hf : fetch c with
      | none => simp [runChildren, hm, hsk, hf, childYield, ih count]
      | some doc =>
        simp [runChildren, hm, hsk, hf, childYield,
          runUrlset_of_limit_false pat m hm, ih]

theorem runUrlset_limit (pat : Option (String → Bool)) (m : Nat) (hm : m ≠ 0)
    (es : List SitemapEntry) : ∀ count,
    runUrlset pat (some m) count es
      = ((es.filter (keepEntry pat)).take (m - count),
         count + min (m - count) (es.filter (keepEntry pat)).length) := by
  induction es with
  | nil => intro count; simp [runUrlset]
  | cons e rest ih =>
    intro count
    by_cases hc : m ≤ count
    · have hl : limitReached (some m) count = true := by
        simp [limitReached, hm, hc]
      have h0 : m - count = 0 := by omega
      simp [runUrlset, hl, h0]
    · have hl : limitReached (some m) count = false := by
        simp [limitReached, hc]
      cases hk : keepEntry pat e with
      | true =>
        obtain ⟨k, hk2⟩ : ∃ k, m - count = k + 1 := ⟨m - count - 1, by omega⟩
        simp [runUrlset, hl, hk, List.filter_cons, ih (count + 1), hk2,
          List.take_succ_cons]
        constructor
        · have : m - (count + 1) = k := by omega
          rw [this]
        · omega
      | false => simp [runUrlset, hl, hk, List.filter_cons, ih count]

theorem runChildren_limit (fetch : String → Option SitemapDoc)
    (pf : String → Option Rat) (pat : Option (String → Bool)) (m : Nat)
    (hm : m ≠ 0) (skip : Bool) (cs : List String) : ∀ count,
    runChildren fetch pf pat (some m) skip count cs
      = (cs.flatMap (childYield fetch pf pat skip)).take (m - count) := by
  induction cs with
  | nil => intro count; simp [runChildren]
  | cons c rest ih =>
    intro count
    by_cases hc : m ≤ count
    · have hl : limitReached (some m) count = true := by
        simp [limitReached, hm, hc]
      have h0 : m - count = 0 := by omega
      simp [runChildren, hl, h0]
    · have hl : limitReached (some m) count = false := by
        simp [limitReached, hc]
      cases hsk : skip && hasIgnoreKeyword c with
      | true => simp [runChildren, hl, hsk, childYield, ih count]
      | false =>
        cases hf : fetch c with
        | none => simp [runChildren, hl, hsk, hf, childYield, ih count]
        | some doc =>
          rw [runChildren]
          simp only [hl, hsk, hf, Bool.false_eq_true, if_false]
          rw [runUrlset_limit pat m hm _ count]
          rw [ih (count + min (m - count) ((parse_urlset pf doc).filter (keepEntry pat)).length)]
          rw [List.flatMap_cons]
          have hcy : childYield fetch pf pat skip c
              = (parse_urlset pf doc).filter (keepEntry pat) := by
            simp [childYield, hsk, hf]
          rw [hcy, List.take_append_eq_append_take]
          have harg : m - (count + min (m - count)
                ((parse_urlset pf doc).filter (keepEntry pat)).length)
              = m - count - ((parse_urlset pf doc).filter (keepEntry pat)).length := by
            omega
          rw [harg]

theorem flatMap_skip_filter {α β : Type} (f : α → List β) (q : α → Bool)
    (l : List α) :
    l.flatMap (fun c => if q c then [] else f c)
      = (l.filter (fun c => !q c)).flatMap f := by
  induction l with
  | nil => simp
  | cons c rest ih =>
    cases hq : q c <;> simp [List.filter_cons, hq, ih]

theorem smartFilter_flatMap (fetch : String → Option SitemapDoc)
    (pf : String → Option Rat) (pat : Option (String → Bool))
    (children : List String) :
    ((if (children.filter isPostSitemap).isEmpty then children
      else children.filter isPostSitemap).flatMap
        (childYield fetch pf pat (children.filter isPostSitemap).isEmpty))
      = (keptChildren children).flatMap
          (fun c => (fetchedEntries fetch pf c).filter (keepEntry pat)) := by
  by_cases hpost : children.any isPostSitemap = true
  · obtain ⟨a, ha, hpa⟩ := List.any_eq_true.mp hpost
    have hne : (children.filter isPostSitemap).isEmpty = false := by
      have hmem : a ∈ children.filter isPostSitemap := List.mem_filter.mpr ⟨ha, hpa⟩
      exact List.isEmpty_eq_false.mpr (List.ne_nil_of_mem hmem)
    rw [hne]
    simp only [Bool.false_eq_true, if_false, keptChildren, hpost, if_true]
    refine List.flatMap_congr ?_
    intro c _
    simp [childYield_eq]
  · have hpost' : children.any isPostSitemap = false :=
      Bool.eq_false_iff.mpr hpost
    have hnil : children.filter isPostSitemap = [] := by
      refine List.filter_eq_nil_iff.mpr ?_
      intro a ha
      simpa using List.any_eq_false.mp hpost' a ha
    rw [hnil]
    simp only [List.isEmpty_nil, if_true, keptChildren, hpost', Bool.false_eq_true,
      if_false]
    have : (childYield fetch pf pat true)
        = fun c => if hasIgnoreKeyword c then []
            else (fetchedEntries fetch pf c).filter (keepEntry pat) := by
      funext c
      simp [childYield_eq]
    rw [this, flatMap_skip_filter]

/-! ### Lemmas about the section segmentation -/

theorem sectStep_current_none (st : SectState) (e : BlockElem)
    (h : st.current = none) (he : isH2Elem e = false) :
    (sectStep st e).current = none := by
  cases e with
  | h2 t => simp [isH2Elem] at he
  | h3 t => simp [sectStep, h]
  | p t =>
    by_cases ht : t = "" <;> simp [sectStep, h, ht]
  | ul items => simp [sectStep, h]
  | ol items => simp [sectStep, h]
  | table rows => simp [sectStep, h]

theorem foldl_sectStep_current_none (l : List BlockElem) :
    ∀ st : SectState, st.current = none →
      l.all (fun e => !isH2Elem e) = true →
      ((l.foldl sectStep st).current = none) := by
  induction l with
  | nil => intro st h _; simpa using h
  | cons e rest ih =>
    intro st h hall
    rw [List.all_cons, Bool.and_eq_true, Bool.not_eq_true'] at hall
    exact ih _ (sectStep_current_none st e h hall.1) hall.2

theorem sectStep_h3_of_none (st : SectState) (t : String)
    (h : st.current = none) : sectStep st (.h3 t) = st := by
  simp [sectStep, h]

theorem sectStep_table_of_none (st : SectState) (rows : List (List String))
    (h : st.current = none) : sectStep st (.table rows) = st := by
  simp [sectStep, h]

/-! ### Lemmas about the tag extraction -/

theorem mem_setAdd (l : List String) (a x : String) :
    x ∈ setAdd l a ↔ x ∈ l ∨ x = a := by
  unfold setAdd
  by_cases h : a ∈ l
  · simp only [if_pos h]
    constructor
    · exact Or.inl
    · rintro (hx | rfl)
      · exact hx
      · exact h
  · simp [if_neg h]

theorem nodup_setAdd (l : List String) (a : String) (h : l.Nodup) :
    (setAdd l a).Nodup := by
  unfold setAdd
  by_cases ha : a ∈ l
  · simpa [ha] using h
  · rw [if_neg ha, ← List.concat_eq_append]
    exact h.concat ha

theorem foldl_setAdd_mem (p : String → Prop) [DecidablePred p]
    (f : String → String) (l : List String) :
    ∀ (acc : List String) (x : String),
      (x ∈ l.foldl (fun s a => if p a then setAdd s (f a) else s) acc)
        ↔ x ∈ acc ∨ x ∈ (l.filter (fun a => decide (p a))).map f := by
  induction l with
  | nil => intro acc x; simp
  | cons a rest ih =>
    intro acc x
    by_cases hp : p a
    · simp only [List.foldl_cons, if_pos hp, List.filter_cons,
        decide_eq_true hp, if_true, ih, mem_setAdd, List.map_cons, List.mem_cons]
      tauto
    · simp only [List.foldl_cons, if_neg hp, List.filter_cons,
        decide_eq_false hp, Bool.false_eq_true, if_false, ih]

theorem foldl_setAdd_nodup (p : String → Prop) [DecidablePred p]
    (f : String → String) (l : List String) :
    ∀ acc : List String, acc.Nodup →
      (l.foldl (fun s a => if p a then setAdd s (f a) else s) acc).Nodup := by
  induction l with
  | nil => intro acc h; simpa using h
  | cons a rest ih =>
    intro acc h
    by_cases hp : p a
    · simp only [List.foldl_cons, if_pos hp]
      exact ih _ (nodup_setAdd acc (f a) h)
    · simp only [List.foldl_cons, if_neg hp]
      exact ih _ h

/-! ### Lemmas about the URL validator -/

theorem startsWithList_iff (pre : List Char) :
    ∀ l, startsWithList pre l = true ↔ ∃ rest, l = pre ++ rest := by
  induction pre with
  | nil => intro l; simp [startsWithList]
  | cons p ps ih =>
    intro l
    cases l with
    | nil => simp [startsWithList]
    | cons c cs =>
      rw [startsWithList, Bool.and_eq_true, beq_iff_eq, ih]
      constructor
      · rintro ⟨rfl, rest, rfl⟩
        exact ⟨rest, rfl⟩
      · rintro ⟨rest, h⟩
        rw [List.cons_append] at h
        obtain ⟨rfl, rfl⟩ := List.cons.injEq .. ▸ h
        exact ⟨rfl, rest, rfl⟩

theorem pageNumAt_mem (cs : List Char) (h : pageNumAt cs = true) : 'p' ∈ cs := by
  rw [pageNumAt, Bool.and_eq_true, startsWithList_iff] at h
  obtain ⟨⟨rest, rfl⟩, _⟩ := h
  simp [String.data]

theorem containsPageNum_mem (cs : List Char) (h : containsPageNum cs = true) :
    'p' ∈ cs := by
  induction cs with
  | nil => simp [containsPageNum] at h
  | cons c rest ih =>
    rw [containsPageNum, Bool.or_eq_true] at h
    rcases h with h | h
    · exact pageNumAt_mem _ h
    · exact List.mem_cons_of_mem c (ih h)

theorem mem_dropWhile_of_mem (p : Char → Bool) (l : List Char) (a : Char)
    (ha : a ∈ l) (hpa : p a = false) : a ∈ l.dropWhile p := by
  induction l with
  | nil => simp at ha
  | cons c rest ih =>
    rw [List.dropWhile_cons]
    rcases List.mem_cons.mp ha with rfl | hmem
    · simp [hpa]
    · by_cases hc : p c = true
      · simp only [hc, if_true]
        exact ih hmem
      · simp only [Bool.not_eq_true] at hc
        simp [hc, List.mem_cons, hmem]

theorem mem_stripChar_of_mem (sep : Char) (l : List Char) (a : Char)
    (ha : a ∈ l) (hne : (a == sep) = false) : a ∈ stripChar sep l := by
  unfold stripChar
  rw [List.mem_reverse]
  refine mem_dropWhile_of_mem _ _ _ ?_ hne
  rw [List.mem_reverse]
  exact mem_dropWhile_of_mem _ _ _ ha hne

theorem stripChar_isEmpty_false_of_mem (sep : Char) (l : List Char) (a : Char)
    (ha : a ∈ l) (hne : (a == sep) = false) :
    (stripChar sep l).isEmpty = false :=
  List.isEmpty_eq_false.mpr
    (List.ne_nil_of_mem (mem_stripChar_of_mem sep l a ha hne))

theorem parseQsKeys_empty : parseQsKeys "" = [] := rfl

theorem splitOnChar_no_sep (sep : Char) (l : List Char) (h : sep ∉ l) :
    splitOnChar sep l = [l] := by
  induction l with
  | nil => rfl
  | cons c rest ih =>
    rw [List.mem_cons, not_or] at h
    have hc : ¬ c = sep := fun hc => h.1 hc.symm
    rw [splitOnChar, ih h.2]
    simp [hc]

theorem dropWhile_eq_self_of_forall (p : Char → Bool) (l : List Char)
    (h : ∀ x ∈ l, p x = false) : l.dropWhile p = l := by
  cases l with
  | nil => rfl
  | cons c rest => rw [List.dropWhile_cons, h c (List.mem_cons_self c rest)]; simp

theorem stripChar_single_seg (seg t : List Char) (hsl : '/' ∉ seg)
    (ht : t = [] ∨ t = ['/']) (hseg : seg ≠ []) :
    stripChar '/' ('/' :: (seg ++ t)) = seg := by
  have hall : ∀ x ∈ seg, (x == '/') = false := by
    intro x hx
    exact beq_eq_false_iff_ne.mpr (fun he => hsl (he ▸ hx))
  have hd2 : List.dropWhile (fun c => c == '/') (seg ++ t) = seg ++ t := by
    obtain ⟨a, s, rfl⟩ : ∃ a s, seg = a :: s := by
      cases seg with
      | nil => exact absurd rfl hseg
      | cons a s => exact ⟨a, s, rfl⟩
    rw [List.cons_append, List.dropWhile_cons,
      hall a (List.mem_cons_self a s)]
    simp
  unfold stripChar
  rw [List.dropWhile_cons]
  simp only [beq_self_eq_true, if_true]
  rw [hd2]
  cases ht with
  | inl h0 =>
    subst h0
    rw [List.append_nil,
      dropWhile_eq_self_of_forall _ _ (fun x hx => hall x (List.mem_reverse.mp hx)),
      List.reverse_reverse]
  | inr h1 =>
    subst h1
    rw [List.reverse_append]
    have hsingle : (['/'] : List Char).reverse ++ seg.reverse
        = '/' :: seg.reverse := by simp
    rw [hsingle, List.dropWhile_cons]
    simp only [beq_self_eq_true, if_true]
    rw [dropWhile_eq_self_of_forall _ _ (fun x hx => hall x (List.mem_reverse.mp hx)),
      List.reverse_reverse]

theorem containsPageNum_append_left (l t : List Char)
    (h : ∀ c ∈ l, (c == '/') = false) :
    containsPageNum (l ++ t) = containsPageNum t := by
  induction l with
  | nil => rfl
  | cons c rest ih =>
    have hc : (c == '/') = false := h c (List.mem_cons_self c rest)
    have hcs : ('/' == c) = false := by
      rw [beq_eq_false_iff_ne] at hc ⊢
      exact fun he => hc he.symm
    rw [List.cons_append, containsPageNum]
    have hpn : pageNumAt (c :: (rest ++ t)) = false := by
      rw [pageNumAt]
      have : startsWithList "/page/".data (c :: (rest ++ t)) = false := by
        show startsWithList ('/' :: "page/".data) (c :: (rest ++ t)) = false
        rw [startsWithList, hcs, Bool.false_and]
      rw [this, Bool.false_and]
    rw [hpn, Bool.false_or]
    exact ih (fun x hx => h x (List.mem_cons_of_mem c hx))

theorem pageNumAt_single_seg (seg t : List Char) (hsl : '/' ∉ seg)
    (ht : t = [] ∨ t = ['/']) :
    pageNumAt ('/' :: (seg ++ t)) = false := by
  cases hs : startsWithList "page/".data (seg ++ t) with
  | false =>
    rw [pageNumAt]
    have h1 : startsWithList "/page/".data ('/' :: (seg ++ t)) = false := by
      show startsWithList ('/' :: "page/".data) ('/' :: (seg ++ t)) = false
      rw [startsWithList, hs, Bool.and_false]
    rw [h1, Bool.false_and]
  | true =>
    obtain ⟨rest, heq⟩ := (startsWithList_iff _ _).mp hs
    cases ht with
    | inl h0 =>
      subst h0
      rw [List.append_nil] at heq
      have hmem : '/' ∈ seg := by
        rw [heq]
        exact List.mem_append_left rest (by decide)
      exact absurd hmem hsl
    | inr h1 =>
      subst h1
      cases rest with
      | nil =>
        rw [List.append_nil] at heq
        have heq2 : seg ++ ['/'] = ['p', 'a', 'g', 'e'] ++ ['/'] := heq
        have hseg4 : seg = ['p', 'a', 'g', 'e'] := List.append_cancel_right heq2
        subst hseg4
        decide
      | cons d rest2 =>
        have h5 : ("page/".data).length = 5 := rfl
        have hlen : seg.length + 1 = 5 + (rest2.length + 1) := by
          have hthis := congrArg List.length heq
          simp only [List.length_append, List.length_cons, List.length_nil, h5] at hthis
          omega
        have h4 : 4 < seg.length := by omega
        have hL : (seg ++ ['/'])[4]? = seg[4]? := List.getElem?_append_left h4
        have hR : ("page/".data ++ (d :: rest2))[4]? = some '/' := by
          rw [List.getElem?_append_left (by rw [h5]; omega)]
          rfl
        have hget : seg[4]? = some '/' := by rw [← hL, heq, hR]
        exact absurd (List.getElem?_mem hget) hsl

theorem containsPageNum_single_seg (seg t : List Char) (hsl : '/' ∉ seg)
    (ht : t = [] ∨ t = ['/']) :
    containsPageNum ('/' :: (seg ++ t)) = false := by
  have hall : ∀ x ∈ seg, (x == '/') = false := by
    intro x hx
    exact beq_eq_false_iff_ne.mpr (fun he => hsl (he ▸ hx))
  rw [containsPageNum, pageNumAt_single_seg seg t hsl ht, Bool.false_or,
    containsPageNum_append_left seg t hall]
  cases ht with
  | inl h0 => subst h0; rfl
  | inr h1 => subst h1; decide

theorem has_subdomain_of_blogHostLabels (u : Url)
    (h : blogHostLabels u.netloc = true) : has_subdomain u = true := by
  rw [blogHostLabels, Bool.and_eq_true, decide_eq_true_iff, decide_eq_true_iff] at h
  obtain ⟨hlen, hmem⟩ := h
  rw [has_subdomain]
  cases hsp : splitOnChar '.' (lowerStr u.netloc) with
  | nil => rw [hsp] at hlen; simp at hlen
  | cons a rest =>
    rw [hsp] at hlen hmem
    simp only [List.headD_cons] at hmem
    rw [List.map_cons, List.headD_cons]
    have hlen2 : (3 ≤ ((String.mk a :: rest.map String.mk) : List String).length) := by
      simp only [List.length_cons, List.length_map]
      simpa using hlen
    rw [decide_eq_true hlen2, Bool.true_and]
    have hcases : a = "blog".data ∨ a = "news".data ∨ a = "articles".data
        ∨ a = "content".data := by simpa using hmem
    rcases hcases with rfl | rfl | rfl | rfl <;> decide

theorem matches_archive_pattern_eq (u : Url) :
    matches_archive_pattern u
      = (matchesOtherArchivePattern u.path
          || (!has_subdomain u && pat1 (lowerStr u.path))) := by
  rw [matches_archive_pattern, matchesOtherArchivePattern, Bool.eq_iff_iff]
  simp only [Bool.or_eq_true, Bool.and_eq_true]
  tauto

/-! ### Lemmas about article validation -/

theorem foldl_add_content_length (l : List ContentSection) :
    ∀ n : Nat, l.foldl (fun acc s => acc + s.content.length) n
      = n + (l.map (fun s => s.content.length)).sum := by
  induction l with
  | nil => intro n; simp
  | cons s rest ih =>
    intro n
    rw [List.foldl_cons, ih (n + s.content.length), List.map_cons, List.sum_cons]
    omega

/-! ### The claims -/

/-- C1 counterexample: in `_extract_sections`, a table before the first
level-2 heading is NOT appended into the introduction accumulator.  A
document whose only block content is one non-empty table (pipe text
`"x | y"`) produces no introduction section at all: the returned section
list is empty, contradicting the claim that an introduction section
containing the table text is produced. -/
theorem C1_counterexample :
    extract_table_text [["x", "y"]] = "x | y"
    ∧ extract_sections [BlockElem.table [["x", "y"]]] = [] := by
  constructor
  · rfl
  · decide

/-- C1 amended: a table element encountered while no section is open (no
level-2 heading processed yet, no matter what non-heading content
precedes it) is silently discarded — the traversal state is unchanged, so
the result is as if the table were absent; in particular a document whose
only pre-H2 block content is a non-empty table produces no introduction
section and an empty section list. -/
theorem C1_amended (pre post : List BlockElem) (rows : List (List String))
    (hpre : pre.all (fun e => !isH2Elem e) = true) :
    extract_sections (pre ++ BlockElem.table rows :: post)
        = extract_sections (pre ++ post)
    ∧ extract_sections [BlockElem.table [["x", "y"]]] = [] := by
  constructor
  · have hcur : ((pre.foldl sectStep ⟨[], none, []⟩).current) = none :=
      foldl_sectStep_current_none pre _ rfl hpre
    unfold extract_sections
    rw [List.foldl_append, List.foldl_append, List.foldl_cons,
      sectStep_table_of_none _ _ hcur]
  · decide

/-- C1 witness for the amended theorem: a leading paragraph, a discarded
pre-H2 table, then an ordinary section. -/
theorem C1_witness :
    extract_sections ([BlockElem.p "intro"]
        ++ BlockElem.table [["x", "y"]] :: [BlockElem.h2 "T", BlockElem.p "b"])
      = extract_sections ([BlockElem.p "intro"] ++ [BlockElem.h2 "T", BlockElem.p "b"])
    ∧ extract_sections [BlockElem.table [["x", "y"]]] = [] :=
  C1_amended [BlockElem.p "intro"] [BlockElem.h2 "T", BlockElem.p "b"]
    [["x", "y"]] (by decide)

/-- C10: a level-3 heading encountered while no section is open (before
any level-2 heading) is silently discarded: the extraction result is
identical to the one for the document without that heading, so its text
appears neither in the introduction section nor in any later section. -/
theorem C10_h3_discarded (pre post : List BlockElem) (t : String)
    (hpre : pre.all (fun e => !isH2Elem e) = true) :
    extract_sections (pre ++ BlockElem.h3 t :: post)
      = extract_sections (pre ++ post) := by
  have hcur : ((pre.foldl sectStep ⟨[], none, []⟩).current) = none :=
    foldl_sectStep_current_none pre _ rfl hpre
  unfold extract_sections
  rw [List.foldl_append, List.foldl_append, List.foldl_cons,
    sectStep_h3_of_none _ _ hcur]

/-- C10 witness: a pre-H2 level-3 heading vanishes from the result. -/
theorem C10_witness :
    extract_sections ([BlockElem.p "intro"]
        ++ BlockElem.h3 "gone" :: [BlockElem.h2 "T", BlockElem.p "b"])
      = extract_sections ([BlockElem.p "intro"] ++ [BlockElem.h2 "T", BlockElem.p "b"]) :=
  C10_h3_discarded [BlockElem.p "intro"] [BlockElem.h2 "T", BlockElem.p "b"]
    "gone" (by decide)

/-- C5: `is_valid_article` computes the total extracted length as the
length of `content_html` or, only when that length is zero, the summed
length of all section bodies; every content with total strictly below 100
is rejected with reason "Content too short", and every content with total
at least 100 (including exactly 100) is accepted. -/
theorem C5_is_valid_article (c : ExtractedContent) :
    is_valid_article c
      = if totalExtractedLength c < 100 then (false, "Content too short")
        else (true, "Valid article") := by
  rw [is_valid_article, totalExtractedLength]
  by_cases h : c.content_html.length = 0
  · simp [h, foldl_add_content_length]
  · simp [h]

/-- C8: in `parse_urlset`, a url element whose `priority` text fails
numeric parsing still yields a `SitemapEntry` with `priority = none`,
keeping its parsed `lastmod`/`changefreq`; neither that entry nor the
entries before or after it are lost. -/
theorem C8_priority_failure (pf : String → Option Rat)
    (pre post : List UrlElem) (e : UrlElem) (u ptext : String)
    (hloc : e.loc = some u) (hpri : e.priority = some ptext)
    (hpf : pf ptext = none) :
    parse_urlset pf (.urlset (pre ++ e :: post))
      = parse_urlset pf (.urlset pre)
        ++ ({ url := u, lastmod := e.lastmod, changefreq := e.changefreq,
              priority := none } : SitemapEntry)
          :: parse_urlset pf (.urlset post) := by
  simp [parse_urlset, List.filterMap_append, List.filterMap_cons,
    parseUrlElem, hloc, hpri, hpf]

/-- C8 witness: a malformed priority between two good entries. -/
theorem C8_witness :
    parse_urlset (fun _ => none)
        (.urlset ([({ loc := some "https://e.com/a" } : UrlElem)]
          ++ ({ loc := some "https://e.com/b", lastmod := some "2024-01-02",
                changefreq := some "daily", priority := some "not-a-number" } : UrlElem)
            :: [({ loc := some "https://e.com/c" } : UrlElem)]))
      = parse_urlset (fun _ => none)
          (.urlset [({ loc := some "https://e.com/a" } : UrlElem)])
        ++ ({ url := "https://e.com/b", lastmod := some "2024-01-02",
              changefreq := some "daily", priority := none } : SitemapEntry)
          :: parse_urlset (fun _ => none)
              (.urlset [({ loc := some "https://e.com/c" } : UrlElem)]) :=
  C8_priority_failure (fun _ => none)
    [({ loc := some "https://e.com/a" } : UrlElem)]
    [({ loc := some "https://e.com/c" } : UrlElem)]
    ({ loc := some "https://e.com/b", lastmod := some "2024-01-02",
       changefreq := some "daily", priority := some "not-a-number" } : UrlElem)
    "https://e.com/b" "not-a-number" rfl rfl rfl

/-- C9: calling `get_all_urls` with `max_urls = 0` behaves exactly like
calling it with no limit, because the Python check
`max_urls and count >= max_urls` is falsy for `0`; on a plain url set this
means every filter-matching entry is yielded. -/
theorem C9_zero_limit (fetch : String → Option SitemapDoc)
    (pf : String → Option Rat) (url : String) (pat : Option (String → Bool))
    (elems : List UrlElem) :
    get_all_urls fetch pf url pat (some 0) = get_all_urls fetch pf url pat none
    ∧ get_all_urls (fun _ => some (.urlset elems)) pf url pat (some 0)
        = (elems.filterMap (parseUrlElem pf)).filter (keepEntry pat) := by
  have hm0 : ∀ c, limitReached (some 0) c = false := fun _ => rfl
  have hmn : ∀ c, limitReached none c = false := fun _ => rfl
  constructor
  · unfold get_all_urls
    cases hf : fetch url with
    | none => rfl
    | some doc =>
      cases doc with
      | index children =>
        simp only [is_sitemap_index, if_true, parse_sitemap_index]
        rw [runChildren_of_limit_false fetch pf pat (some 0) hm0 _ _ 0,
          runChildren_of_limit_false fetch pf pat none hmn _ _ 0]
      | urlset es =>
        simp only [is_sitemap_index, Bool.false_eq_true, if_false]
        rw [runUrlset_of_limit_false pat (some 0) hm0 _ 0,
          runUrlset_of_limit_false pat none hmn _ 0]
  · unfold get_all_urls
    simp only [is_sitemap_index, Bool.false_eq_true, if_false]
    rw [runUrlset_of_limit_false pat (some 0) hm0 _ 0]
    rfl

/-- C3: on a sitemap index, `get_all_urls` applies the smart filtering: it
traverses exactly the children whose final URL segment contains "post"
when any such child exists, and otherwise all children except those whose
URL contains one of category/tag/author/user/page (see `keptChildren`);
the unbounded, unfiltered traversal yields exactly the concatenated
entries of the retained children. -/
theorem C3_smart_filtering (fetch : String → Option SitemapDoc)
    (pf : String → Option Rat) (root : String) (children : List String)
    (h : fetch root = some (.index children)) :
    get_all_urls fetch pf root none none
      = (keptChildren children).flatMap (fetchedEntries fetch pf) := by
  unfold get_all_urls
  rw [h]
  simp only [is_sitemap_index, if_true, parse_sitemap_index]
  rw [runChildren_of_limit_false fetch pf none none (fun _ => rfl) _ _ 0,
    smartFilter_flatMap fetch pf none children]
  refine List.flatMap_congr ?_
  intro c _
  simp [keepEntry, List.filter_true]

/-- C3 witness: an index with post/category/tag children traverses only the
post sitemap; an index with only category/tag children yields nothing. -/
theorem C3_witness :
    get_all_urls
        (fun u =>
          if u = "https://e.com/sitemap.xml" then
            some (.index ["https://e.com/post-sitemap.xml",
              "https://e.com/category-sitemap.xml", "https://e.com/tag-sitemap.xml"])
          else if u = "https://e.com/post-sitemap.xml" then
            some (.urlset [({ loc := some "https://e.com/p1" } : UrlElem),
              ({ loc := some "https://e.com/p2" } : UrlElem)])
          else if u = "https://e.com/category-sitemap.xml" then
            some (.urlset [({ loc := some "https://e.com/c1" } : UrlElem)])
          else none)
        (fun _ => none) "https://e.com/sitemap.xml" none none
      = [({ url := "https://e.com/p1" } : SitemapEntry),
         ({ url := "https://e.com/p2" } : SitemapEntry)]
    ∧ get_all_urls
        (fun u =>
          if u = "https://e.com/sitemap.xml" then
            some (.index ["https://e.com/category-sitemap.xml",
              "https://e.com/tag-sitemap.xml"])
          else if u = "https://e.com/category-sitemap.xml" then
            some (.urlset [({ loc := some "https://e.com/c1" } : UrlElem)])
          else none)
        (fun _ => none) "https://e.com/sitemap.xml" none none
      = [] := by
  constructor
  · exact (C3_smart_filtering _ (fun _ => none) "https://e.com/sitemap.xml"
      ["https://e.com/post-sitemap.xml", "https://e.com/category-sitemap.xml",
        "https://e.com/tag-sitemap.xml"] (by decide)).trans (by decide)
  · exact (C3_smart_filtering _ (fun _ => none) "https://e.com/sitemap.xml"
      ["https://e.com/category-sitemap.xml", "https://e.com/tag-sitemap.xml"]
      (by decide)).trans (by decide)

/-- C4: on a sitemap index whose retained children together contain at
least `max_urls` filter-matching entries (for a non-zero `max_urls`; a zero
limit disables limiting, see the zero-limit claim), `get_all_urls` yields
exactly the first `max_urls` of the concatenation of the retained
children's filter-matching entries — i.e. exactly `max_urls` entries, drawn
in child-sitemap index order and, within each child, in document order. -/
theorem C4_max_urls (fetch : String → Option SitemapDoc)
    (pf : String → Option Rat) (pat : Option (String → Bool)) (root : String)
    (children : List String) (m : Nat)
    (h : fetch root = some (.index children)) (hm : m ≠ 0)
    (hG : m ≤ ((keptChildren children).flatMap
        (fun c => (fetchedEntries fetch pf c).filter (keepEntry pat))).length) :
    get_all_urls fetch pf root pat (some m)
        = ((keptChildren children).flatMap
            (fun c => (fetchedEntries fetch pf c).filter (keepEntry pat))).take m
    ∧ (get_all_urls fetch pf root pat (some m)).length = m := by
  have hmain : get_all_urls fetch pf root pat (some m)
      = ((keptChildren children).flatMap
          (fun c => (fetchedEntries fetch pf c).filter (keepEntry pat))).take m := by
    unfold get_all_urls
    rw [h]
    simp only [is_sitemap_index, if_true, parse_sitemap_index]
    rw [runChildren_limit fetch pf pat m hm _ _ 0,
      smartFilter_flatMap fetch pf pat children]
    simp
  refine ⟨hmain, ?_⟩
  rw [hmain, List.length_take]
  omega

/-- C4 witness: `max_urls = 5` on an index with two children of five
matching entries each yields exactly the five entries of the first child. -/
theorem C4_witness :
    (get_all_urls
        (fun u =>
          if u = "https://e.com/sitemap.xml" then
            some (.index ["https://e.com/a-sitemap.xml", "https://e.com/b-sitemap.xml"])
          else if u = "https://e.com/a-sitemap.xml" then
            some (.urlset [({ loc := some "a1" } : UrlElem), ({ loc := some "a2" } : UrlElem),
              ({ loc := some "a3" } : UrlElem), ({ loc := some "a4" } : UrlElem),
              ({ loc := some "a5" } : UrlElem)])
          else if u = "https://e.com/b-sitemap.xml" then
            some (.urlset [({ loc := some "b1" } : UrlElem), ({ loc := some "b2" } : UrlElem),
              ({ loc := some "b3" } : UrlElem), ({ loc := some "b4" } : UrlElem),
              ({ loc := some "b5" } : UrlElem)])
          else none)
        (fun _ => none) "https://e.com/sitemap.xml" none (some 5)).length = 5 :=
  (C4_max_urls
    (fun u =>
      if u = "https://e.com/sitemap.xml" then
        some (.index ["https://e.com/a-sitemap.xml", "https://e.com/b-sitemap.xml"])
      else if u = "https://e.com/a-sitemap.xml" then
        some (.urlset [({ loc := some "a1" } : UrlElem), ({ loc := some "a2" } : UrlElem),
          ({ loc := some "a3" } : UrlElem), ({ loc := some "a4" } : UrlElem),
          ({ loc := some "a5" } : UrlElem)])
      else if u = "https://e.com/b-sitemap.xml" then
        some (.urlset [({ loc := some "b1" } : UrlElem), ({ loc := some "b2" } : UrlElem),
          ({ loc := some "b3" } : UrlElem), ({ loc := some "b4" } : UrlElem),
          ({ loc := some "b5" } : UrlElem)])
      else none)
    (fun _ => none) none "https://e.com/sitemap.xml"
    ["https://e.com/a-sitemap.xml", "https://e.com/b-sitemap.xml"] 5
    (by decide) (by decide) (by decide)).2

/-- C6: every URL whose parsed query contains one of the pagination keys
page/paged/p/offset, or whose path contains a `/page/<digits>` segment, is
rejected by `is_single_post` with the pagination reason, for every value
of `min_path_depth` and hence regardless of path depth. -/
theorem C6_pagination (minDepth : Nat) (u : Url)
    (h : (∃ p ∈ PAGINATION_PARAMS, p ∈ parseQsKeys u.query)
          ∨ containsPageNum u.path.data = true) :
    is_single_post minDepth u = (false, "URL has pagination parameters") := by
  have hpag : has_pagination u = true := by
    rw [has_pagination, Bool.or_eq_true]
    rcases h with ⟨p, hp, hmem⟩ | hpath
    · exact Or.inl (List.any_eq_true.mpr ⟨p, hp, List.elem_iff.mpr hmem⟩)
    · exact Or.inr hpath
  have hroot : is_root_domain u = false := by
    rw [is_root_domain]
    rcases h with ⟨p, hp, hmem⟩ | hpath
    · have hq : u.query ≠ "" := by
        intro he
        rw [he, parseQsKeys_empty] at hmem
        simp at hmem
      have hqe : u.query.isEmpty = false := by
        rw [Bool.eq_false_iff]
        exact fun hT => hq ((String.isEmpty_iff _).mp hT)
      rw [hqe, Bool.and_false]
    · have hmem2 : 'p' ∈ u.path.data := containsPageNum_mem _ hpath
      rw [stripChar_isEmpty_false_of_mem '/' _ 'p' hmem2 (by decide), Bool.false_and]
  simp [is_single_post, hroot, hpag]

/-- C6 witness: a deep path with a pagination query key is still rejected
as pagination. -/
theorem C6_witness :
    is_single_post 7 (Url.mk "www.example.com" "/a/b/c/d/e" "page=2")
      = (false, "URL has pagination parameters") :=
  C6_pagination 7 (Url.mk "www.example.com" "/a/b/c/d/e" "page=2")
    (Or.inl ⟨"page", by decide, by decide⟩)

/-- C7: `extract_tags` returns the duplicate-free union of the four tag
strategies (comma-split trimmed keywords meta, `article:tag` metas,
`rel="tag"` anchors, anchors in tag-classed containers capped below 50
characters); a page with keywords meta `"a, b, a"` and one `rel="tag"`
anchor `"c"` yields exactly the 3-element set {a, b, c}. -/
theorem C7_extract_tags :
    (∀ (pg : TagPage) (x : String),
      x ∈ extract_tags pg
        ↔ x ∈ keywordStrategy pg ∨ x ∈ articleTagStrategy pg
          ∨ x ∈ relTagStrategy pg ∨ x ∈ containerStrategy pg)
    ∧ (∀ pg : TagPage, (extract_tags pg).Nodup)
    ∧ (extract_tags ⟨some "a, b, a", [], ["c"], []⟩).Perm ["a", "b", "c"] := by
  refine ⟨?_, ?_, ?_⟩
  · intro pg x
    obtain ⟨mk, atm, rta, tca⟩ := pg
    rcases mk with _ | c
    · simp only [extract_tags, keywordStrategy, articleTagStrategy,
        relTagStrategy, containerStrategy]
      rw [foldl_setAdd_mem (fun t => t ≠ "" ∧ t.length < 50) (fun t => t) tca _ x,
        foldl_setAdd_mem (fun t => t ≠ "") (fun t => t) rta _ x,
        foldl_setAdd_mem (fun c2 => c2 ≠ "") pyStrip atm _ x]
      simp only [List.map_id', List.not_mem_nil]
      tauto
    · by_cases hc : c = ""
      · subst hc
        simp only [extract_tags, keywordStrategy, articleTagStrategy,
          relTagStrategy, containerStrategy, ne_eq, not_true_eq_false,
          if_false]
        rw [foldl_setAdd_mem (fun t => t ≠ "" ∧ t.length < 50) (fun t => t) tca _ x,
          foldl_setAdd_mem (fun t => t ≠ "") (fun t => t) rta _ x,
          foldl_setAdd_mem (fun c2 => c2 ≠ "") pyStrip atm _ x]
        simp only [List.map_id', List.not_mem_nil]
        tauto
      · simp only [extract_tags, keywordStrategy, articleTagStrategy,
          relTagStrategy, containerStrategy, if_pos hc]
        rw [foldl_setAdd_mem (fun t => t ≠ "" ∧ t.length < 50) (fun t => t) tca _ x,
          foldl_setAdd_mem (fun t => t ≠ "") (fun t => t) rta _ x,
          foldl_setAdd_mem (fun c2 => c2 ≠ "") pyStrip atm _ x,
          foldl_setAdd_mem (fun kw => kw ≠ "") (fun kw => kw)
            (((splitOnChar ',' c.data).map String.mk).map pyStrip) [] x]
        simp only [List.map_id', List.not_mem_nil]
        tauto
  · intro pg
    have h1 : (match pg.metaKeywords with
        | some c =>
          if c ≠ "" then
            (((splitOnChar ',' c.data).map String.mk).map pyStrip).foldl
              (fun s kw => if kw ≠ "" then setAdd s kw else s) []
          else []
        | none => ([] : List String)).Nodup := by
      rcases pg.metaKeywords with _ | c
      · exact List.nodup_nil
      · show (if c ≠ "" then
            (((splitOnChar ',' c.data).map String.mk).map pyStrip).foldl
              (fun s kw => if kw ≠ "" then setAdd s kw else s) []
          else []).Nodup
        by_cases hc : c = ""
        · simp [hc]
        · rw [if_pos hc]
          exact foldl_setAdd_nodup (fun kw => kw ≠ "") (fun kw => kw) _ []
            List.nodup_nil
    simp only [extract_tags]
    exact foldl_setAdd_nodup (fun t => t ≠ "" ∧ t.length < 50) (fun t => t)
      pg.tagContainerAnchors _
      (foldl_setAdd_nodup (fun t => t ≠ "") (fun t => t) pg.relTagAnchors _
        (foldl_setAdd_nodup (fun c2 => c2 ≠ "") pyStrip pg.articleTagMetas _ h1))
  · have hval : extract_tags ⟨some "a, b, a", [], ["c"], []⟩ = ["a", "b", "c"] := by
      decide
    rw [hval]

/-- C2 counterexample: the claim's universal acceptance fails on the code.
`blog.example.com/search` satisfies every hypothesis of the claim — a
blog subdomain host (first of three labels is "blog"), a single non-empty
non-numeric path segment, no pagination query — yet `is_single_post`
rejects it with the archive-pattern reason, because the `^/search` archive
pattern (index 7) still applies on blog subdomains. -/
theorem C2_counterexample :
    ("search".data ≠ [] ∧ '/' ∉ "search".data
        ∧ "search".data.all Char.isDigit = false
        ∧ parseQsKeys "" = []
        ∧ blogHostLabels "blog.example.com" = true
        ∧ has_subdomain (Url.mk "blog.example.com" "/search" "") = true)
    ∧ is_single_post 3 (Url.mk "blog.example.com" "/search" "")
        = (false, "URL matches archive pattern") := by
  exact ⟨⟨by decide, by decide, by decide, rfl, by decide, by decide⟩, by decide⟩

/-- C2 (amended): on a host whose first of at least three dot-separated
labels is blog/news/articles/content, a URL whose path is a single
non-empty, non-numeric segment (with or without a trailing slash), with no
pagination query key, and whose path matches none of the archive patterns
other than the single-segment pattern (index 1), is accepted by
`is_single_post` as a valid single post; the same single-segment path on
`www.example.com` is rejected with the archive-pattern reason; and on
every URL the archive matcher tests exactly the other patterns plus — only
on hosts without a blog subdomain — the single-segment pattern, i.e. only
pattern index 1 is exempted. -/
theorem C2_amended (netloc query : String) (seg t : List Char)
    (hhost : blogHostLabels netloc = true)
    (hseg : seg ≠ []) (hsl : '/' ∉ seg)
    (ht : t = [] ∨ t = ['/'])
    (hnum : seg.all Char.isDigit = false)
    (hq : ∀ p ∈ PAGINATION_PARAMS, p ∉ parseQsKeys query)
    (hother : matchesOtherArchivePattern (String.mk ('/' :: (seg ++ t))) = false) :
    is_single_post 3 (Url.mk netloc (String.mk ('/' :: (seg ++ t))) query)
        = (true, "Valid single post URL")
    ∧ is_single_post 3 (Url.mk "www.example.com" "/my-post" "")
        = (false, "URL matches archive pattern")
    ∧ (∀ v : Url, matches_archive_pattern v
        = (matchesOtherArchivePattern v.path
            || (!has_subdomain v && pat1 (lowerStr v.path)))) := by
  refine ⟨?_, by decide, matches_archive_pattern_eq⟩
  have hsub : has_subdomain (Url.mk netloc (String.mk ('/' :: (seg ++ t))) query)
      = true := has_subdomain_of_blogHostLabels _ hhost
  have hstrip : stripChar '/' ('/' :: (seg ++ t)) = seg :=
    stripChar_single_seg seg t hsl ht hseg
  have hsegE : seg.isEmpty = false := List.isEmpty_eq_false.mpr hseg
  have hroot : is_root_domain (Url.mk netloc (String.mk ('/' :: (seg ++ t))) query)
      = false := by
    show ((stripChar '/' ('/' :: (seg ++ t))).isEmpty && query.isEmpty) = false
    rw [hstrip, hsegE, Bool.false_and]
  have hpag : has_pagination (Url.mk netloc (String.mk ('/' :: (seg ++ t))) query)
      = false := by
    show (PAGINATION_PARAMS.any (fun p => (parseQsKeys query).contains p)
        || containsPageNum ('/' :: (seg ++ t))) = false
    have h1 : PAGINATION_PARAMS.any (fun p => (parseQsKeys query).contains p)
        = false := by
      rw [List.any_eq_false]
      intro p hp hcon
      exact hq p hp (List.elem_iff.mp hcon)
    rw [h1, containsPageNum_single_seg seg t hsl ht]
    rfl
  have harch : matches_archive_pattern
      (Url.mk netloc (String.mk ('/' :: (seg ++ t))) query) = false := by
    rw [matches_archive_pattern_eq]
    simp [hsub, hother]
  have hsplit : splitOnChar '/' seg = [seg] := splitOnChar_no_sep '/' seg hsl
  have hdepth : get_path_depth (Url.mk netloc (String.mk ('/' :: (seg ++ t))) query)
      = 1 := by
    show (let path := stripChar '/' ('/' :: (seg ++ t));
      if path.isEmpty then 0 else (splitOnChar '/' path).length) = 1
    simp only [hstrip, hsegE, Bool.false_eq_true, if_false, hsplit,
      List.length_singleton]
  rw [is_single_post]
  rw [hroot, hpag, harch, hdepth, hsub]
  have hlast : (splitOnChar '/' (stripChar '/'
      ((Url.mk netloc (String.mk ('/' :: (seg ++ t))) query).path.data))).getLastD []
      = seg := by
    show (splitOnChar '/' (stripChar '/' ('/' :: (seg ++ t)))).getLastD [] = seg
    rw [hstrip, hsplit]
    rfl
  simp only [hlast, hsegE, hnum, Bool.or_self, Bool.false_eq_true, if_false,
    Nat.lt_irrefl, ite_true, ite_false]

/-- C2 witness for the amended theorem: `blog.example.com/my-post` is
accepted. -/
theorem C2_witness :
    is_single_post 3 (Url.mk "blog.example.com" "/my-post" "")
      = (true, "Valid single post URL") :=
  (C2_amended "blog.example.com" "" "my-post".data [] (by decide) (by decide)
    (by decide) (Or.inl rfl) (by decide) (by decide) (by decide)).1
